import Mathlib

/-!
Verification of the Alethia trust-driven content degradation pipeline.

This file shallowly embeds the Python modules under `core/` (trust scoring,
signal fusion, entropy profiles, linguistic transforms, resolution engine,
usability guard, semantic router) as executable Lean definitions over `ℚ`
(Python floats) and `List Char` (Python strings), and proves or refutes the
frozen specification claims about them.

Randomness: Python's `random.random()` and `random.choice(...)` are modelled
by oracle streams passed explicitly (`flip : ℕ → ℚ` gives the float drawn for
the i-th comparison inside a transform call, `pick : ℕ → ℕ` gives the index
drawn for the i-th choice).  Universally quantifying over the oracles covers
every possible RNG behaviour; counterexamples instantiate concrete streams.
-/

namespace Alethia

/-! ## Python string primitives

Python `str.split()` (split on whitespace runs, dropping empty parts),
`" ".join`, `str.split('.')`, `str.strip()`, `str.lower()`, modelled over
`List Char`. -/

/-- Whitespace test used by Python's `str.split()` / `str.strip()`
(restricted to the ASCII whitespace characters that can occur here). -/
def isWsChar (c : Char) : Bool :=
  c = ' ' || c = '\t' || c = '\n' || c = '\r'

/-- Accumulator-passing worker for `tokens`: `acc` holds the (reversed)
characters of the token currently being read. -/
def tokensAux : List Char → List Char → List (List Char)
  | [], acc => if acc = [] then [] else [acc.reverse]
  | c :: cs, acc =>
    if isWsChar c then
      if acc = [] then tokensAux cs [] else acc.reverse :: tokensAux cs []
    else
      tokensAux cs (c :: acc)

/-- Python `s.split()`: whitespace-delimited tokens, empties dropped. -/
def tokens (s : List Char) : List (List Char) :=
  tokensAux s []

/-- Number of whitespace-delimited tokens of a string. -/
def countTokens (s : List Char) : ℕ :=
  (tokens s).length

/-- Python `" ".join(toks)`. -/
def joinSp : List (List Char) → List Char
  | [] => []
  | [t] => t
  | t :: ts => t ++ ' ' :: joinSp ts

/-- A token is well formed when it is non-empty and contains no whitespace;
`tokens` only produces such tokens and `joinSp` is a left inverse on them. -/
def WfToken (t : List Char) : Prop :=
  t ≠ [] ∧ ∀ c ∈ t, isWsChar c = false

/-- Python `text.split(sep)` for a single-character separator: keeps empty
parts, yields one more part than there are separators. -/
def splitCh (sep : Char) : List Char → List (List Char)
  | [] => [[]]
  | c :: cs =>
    if c = sep then
      [] :: splitCh sep cs
    else
      match splitCh sep cs with
      | [] => [[c]]
      | t :: ts => (c :: t) :: ts

/-- Python `s.strip()`: drop leading and trailing whitespace. -/
def pyStrip (s : List Char) : List Char :=
  ((s.dropWhile isWsChar).reverse.dropWhile isWsChar).reverse

/-- Python `s.lower()` (ASCII). -/
def pyLower (s : List Char) : List Char :=
  s.map Char.toLower

/-- Python `lemma.replace("_", " ")` (single-character pattern). -/
def replaceUnderscores (s : List Char) : List Char :=
  s.map fun c => if c = '_' then ' ' else c

/-- Python `needle in hay` prefix worker: does `hay` start with `needle`? -/
def leadsWith : List Char → List Char → Bool
  | [], _ => true
  | _ :: _, [] => false
  | a :: as, b :: bs => a = b && leadsWith as bs

/-- Python substring test `needle in hay`. -/
def containsSub (needle : List Char) : List Char → Bool
  | [] => leadsWith needle []
  | c :: cs => leadsWith needle (c :: cs) || containsSub needle cs

/-- Map with the position index, mirroring per-element RNG draws inside the
Python list comprehensions / loops. -/
def mapWithIdx (f : ℕ → α → β) : ℕ → List α → List β
  | _, [] => []
  | i, x :: xs => f i x :: mapWithIdx f (i + 1) xs

/-- Python `random.choice(l)` where the oracle draw `pick` selects the index
(reduced mod the length); only ever used with non-empty `l`, matching the
code, where `random.choice` on an empty pool would raise `IndexError`. -/
def randomChoice (pick : ℕ) (l : List α) (dflt : α) : α :=
  l.getD (pick % l.length) dflt

/-! ## `core/entropy/linguistic_entropy.py` — class `LinguisticEntropy`

The WordNet corpus is external data, modelled as a parameter
`syns : List Char → List (List Char)` giving the lemma names of all synsets
of a word (the code flattens `wordnet.synsets(word)` exactly so). -/

/-- Default ambiguous-terms pool of `LinguisticEntropy.__init__`. -/
def defaultAmbiguousTerms : List (List Char) :=
  ["set".toList, "lead".toList, "charge".toList, "draft".toList, "bank".toList]

/-- Default placeholder of `LinguisticEntropy.__init__`. -/
def defaultPlaceholder : List Char := "ENTITY".toList

/-- `LinguisticEntropy.apply_synonym_drift`. -/
def apply_synonym_drift (syns : List Char → List (List Char)) (synonym_prob : ℚ)
    (flip : ℕ → ℚ) (pick : ℕ → ℕ) (data : List Char) : List Char :=
  if synonym_prob ≤ 0 then data
  else
    joinSp (mapWithIdx
      (fun i word =>
        if flip i < synonym_prob then
          let lemmas := (syns word).filter (fun l => l ≠ word)
          if lemmas = [] then word
          else replaceUnderscores (randomChoice (pick i) lemmas word)
        else word)
      0 (tokens data))

/-- `LinguisticEntropy.apply_polysemy_injection`. -/
def apply_polysemy_injection (ambiguous_terms : List (List Char)) (polysemy_prob : ℚ)
    (flip : ℕ → ℚ) (pick : ℕ → ℕ) (data : List Char) : List Char :=
  if polysemy_prob ≤ 0 then data
  else
    joinSp (mapWithIdx
      (fun i word =>
        if flip i < polysemy_prob then randomChoice (pick i) ambiguous_terms word
        else word)
      0 (tokens data))

/-- True when the first character of the token is upper case
(Python `word[0].isupper()`). -/
def headIsUpper : List Char → Bool
  | [] => false
  | c :: _ => c.isUpper

/-- `LinguisticEntropy.apply_referential_ambiguity`. -/
def apply_referential_ambiguity (placeholder : List Char) (referential_prob : ℚ)
    (flip : ℕ → ℚ) (data : List Char) : List Char :=
  if referential_prob ≤ 0 then data
  else
    joinSp (mapWithIdx
      (fun i word =>
        if headIsUpper word && decide (flip i < referential_prob) then placeholder
        else word)
      0 (tokens data))

/-! ## `core/linguistics/semantic_noise.py` -/

/-- Worker for `token_swap`: `carry` is `tokens[i]` of the Python loop, the
remaining list holds `tokens[i+1..]`; a swap emits the right token and keeps
carrying the left one, so swaps cascade exactly as in the in-place loop. -/
def swapPass (flip : ℕ → ℚ) (probability : ℚ) : ℕ → List Char → List (List Char) → List (List Char)
  | _, carry, [] => [carry]
  | i, carry, y :: rest =>
    if flip i < probability then y :: swapPass flip probability (i + 1) carry rest
    else carry :: swapPass flip probability (i + 1) y rest

/-- `token_swap` (module-level function). -/
def token_swap (probability : ℚ) (flip : ℕ → ℚ) (text : List Char) : List Char :=
  if probability ≤ 0 then text
  else
    match tokens text with
    | [] => joinSp []
    | x :: xs => joinSp (swapPass flip probability 0 x xs)

/-- `sentence_split_shuffle` (module-level function).  The outcome of
`random.shuffle` is modelled by the oracle `shuffled`, applied only when the
single per-call draw `flip` is below `probability`. -/
def sentence_split_shuffle (probability : ℚ) (flip : ℚ)
    (shuffled : List (List Char) → List (List Char)) (text : List Char) : List Char :=
  if probability ≤ 0 then text
  else
    let sentences := ((splitCh '.' text).map pyStrip).filter (fun s => s ≠ [])
    let sentences := if flip < probability then shuffled sentences else sentences
    (List.intercalate ('.' :: [' ']) sentences) ++ (if sentences = [] then [] else ['.'])

/-! ## Dictionaries

Python dicts of named float signals/weights are modelled as association
lists `List (String × ℚ)` with distinct keys, looked up via `List.lookup`
(`d.get(k, dflt)` becomes `(m.lookup k).getD dflt`). -/

/-- The clamp `max(0.0, min(1.0, v))` shared verbatim by
`SignalFusion._normalize`, `AdaptiveProfiles._normalize` and
`ConfidenceModel`'s final clamp. -/
def clamp01 (v : ℚ) : ℚ := max 0 (min 1 v)

/-! ## `core/trust/trust_scoring.py` — `TrustScoring.compute_score` -/

/-- `TrustScoring.compute_score(context_vector)`, with `self.weights` as the
first argument (empty list = no weights configured). -/
def compute_score (selfWeights context_vector : List (String × ℚ)) : ℚ :=
  if context_vector = [] then 0
  else
    let total_weight : ℚ :=
      if selfWeights = [] then (context_vector.length : ℚ)
      else (selfWeights.map Prod.snd).sum
    let total_weight := if total_weight = 0 then 1 else total_weight
    let score := (context_vector.map
      (fun kv => kv.2 * ((selfWeights.lookup kv.1).getD 1))).sum
    min 1 (max 0 (score / total_weight))

/-! ## `core/trust/confidence_model.py` — `ConfidenceModel.compute_confidence` -/

/-- The weights `compute_confidence` actually uses: when none are configured
it installs equal weight `1.0` for every present key. -/
def effectiveWeights (selfWeights context_vector : List (String × ℚ)) : List (String × ℚ) :=
  if selfWeights = [] then context_vector.map (fun kv => (kv.1, (1 : ℚ))) else selfWeights

/-- `ConfidenceModel.compute_confidence(context_vector)`. -/
def compute_confidence (selfWeights context_vector : List (String × ℚ)) : ℚ :=
  if context_vector = [] then 0
  else
    let w := effectiveWeights selfWeights context_vector
    let total_weight := (context_vector.map (fun kv => (w.lookup kv.1).getD 0)).sum
    if total_weight = 0 then 0
    else
      let score := (context_vector.map
        (fun kv => kv.2 * ((w.lookup kv.1).getD 0))).sum / total_weight
      max 0 (min 1 score)

/-! ## `core/trust/trust_vector.py` — `TrustVector.weighted_score` -/

/-- `TrustVector.weighted_score(weights)`; `none` means the `weights=None`
default (equal weighting). -/
def weighted_score (signals : List (String × ℚ)) (weights : Option (List (String × ℚ))) : ℚ :=
  if signals = [] then 0
  else
    let total_weight : ℚ :=
      match weights with
      | some w => (w.map Prod.snd).sum
      | none => (signals.length : ℚ)
    let total_weight := if total_weight = 0 then 1 else total_weight
    let score := (signals.map
      (fun kv => kv.2 * (match weights with
        | some w => (w.lookup kv.1).getD 1
        | none => (1 : ℚ)))).sum
    min 1 (max 0 (score / total_weight))

/-- The scoring formula as the spec states it (for refinement comparison):
`Σ(signal_value × weight) / Σ(weights over present signals)`, clamped to
`[0,1]`.  This definition follows the spec's words, not the source. -/
def specTrustFormula (weights context_vector : List (String × ℚ)) : ℚ :=
  let den := (context_vector.map (fun kv => (weights.lookup kv.1).getD 0)).sum
  let num := (context_vector.map
    (fun kv => kv.2 * ((weights.lookup kv.1).getD 0))).sum
  min 1 (max 0 (num / den))

/-! ## `core/trust/trust_decay.py` — class `TrustDecay`

Constructor parameters `decay_rate` / `min_trust` (validated to lie in
`[0,1]`) are passed explicitly. -/

/-- `TrustDecay.decay_trust(trust_score)`. -/
def decay_trust (decay_rate min_trust trust_score : ℚ) : ℚ :=
  max min_trust (trust_score * (1 - decay_rate))

/-- `TrustDecay.decay_with_exposure(trust_score, exposure_count)`: the
per-step decay applied `exposure_count` times in a loop. -/
def decay_with_exposure (decay_rate min_trust trust_score : ℚ) : ℕ → ℚ
  | 0 => trust_score
  | n + 1 => decay_trust decay_rate min_trust
      (decay_with_exposure decay_rate min_trust trust_score n)

/-! ## `core/trust/trust_engine.py` — `TrustEngine.evaluate_trust_with_exposure` -/

/-- `TrustEngine.evaluate_trust_with_exposure(context_vector, exposure_count)`:
confidence first, then compounded decay. -/
def evaluate_trust_with_exposure (weights : List (String × ℚ))
    (decay_rate min_trust : ℚ) (context_vector : List (String × ℚ))
    (exposure_count : ℕ) : ℚ :=
  decay_with_exposure decay_rate min_trust
    (compute_confidence weights context_vector) exposure_count

/-! ## `core/context/signal_fusion.py` — `SignalFusion.fuse_signals` -/

/-- The `"risk" in key.lower() or "threat" in key.lower()` test. -/
def riskOrThreat (key : String) : Bool :=
  containsSub "risk".toList (pyLower key.toList) ||
    containsSub "threat".toList (pyLower key.toList)

/-- `SignalFusion.fuse_signals(context_signals, environment_signals, weights)`.
Risk/threat inversion is applied only in the environment-signal loop, exactly
as in the source. -/
def fuse_signals (context_signals environment_signals : List (String × ℚ))
    (weights : Option (List (String × ℚ))) : ℚ :=
  let w : List (String × ℚ) :=
    match weights with
    | some w => w
    | none =>
      let allKeys := context_signals.map Prod.fst ++ environment_signals.map Prod.fst
      let weight : ℚ := 1 / max (allKeys.length : ℚ) 1
      allKeys.map (fun k => (k, weight))
  let ctxSum := (context_signals.map
    (fun kv => clamp01 kv.2 * ((w.lookup kv.1).getD 0))).sum
  let envSum := (environment_signals.map
    (fun kv => (if riskOrThreat kv.1 then 1 - clamp01 kv.2 else clamp01 kv.2) *
      ((w.lookup kv.1).getD 0))).sum
  max 0 (min 1 (ctxSum + envSum))

/-! ## `core/entropy/adaptive_profiles.py` — class `AdaptiveProfiles` -/

/-- The `EntropyProfile` dataclass. -/
structure EntropyProfile where
  name : String
  noise_level : ℚ
  synonym_drift : ℚ
  polysemy_injection : ℚ
  referential_ambiguity : ℚ
deriving DecidableEq

/-- First entry of `AdaptiveProfiles.PROFILES`. -/
def lowNoiseProfile : EntropyProfile :=
  ⟨"low_noise", 0.1, 0.05, 0.05, 0.1⟩

/-- Second entry of `AdaptiveProfiles.PROFILES`. -/
def mediumNoiseProfile : EntropyProfile :=
  ⟨"medium_noise", 0.5, 0.4, 0.35, 0.45⟩

/-- Third entry of `AdaptiveProfiles.PROFILES`. -/
def highNoiseProfile : EntropyProfile :=
  ⟨"high_noise", 0.9, 0.85, 0.8, 0.9⟩

/-- `AdaptiveProfiles.PROFILES` (ordered low → high). -/
def PROFILES : List EntropyProfile :=
  [lowNoiseProfile, mediumNoiseProfile, highNoiseProfile]

/-- `AdaptiveProfiles._get_profile_by_name` (the `ValueError` on a missing
name becomes `none`). -/
def getProfileByName (name : String) : Option EntropyProfile :=
  PROFILES.find? (fun p => p.name == name)

/-- `AdaptiveProfiles.get_profile(trust_score)`: clamp, then fixed bands. -/
def get_profile (trust_score : ℚ) : Option EntropyProfile :=
  let t := clamp01 trust_score
  if 0.8 ≤ t then getProfileByName "low_noise"
  else if 0.4 ≤ t then getProfileByName "medium_noise"
  else getProfileByName "high_noise"

/-! ## `core/orchestration/policy_engine.py` — `PolicyEngine.select_profile` -/

/-- `PolicyEngine.select_profile(trust_score)` reduced to the name of the
`DEFAULT_PROFILES` entry it returns. -/
def select_profile (trust_score : ℚ) : String :=
  if trust_score < 0.4 then "low_trust"
  else if trust_score < 0.8 then "medium_trust"
  else "high_trust"

/-! ## `core/resolution/usability_guard.py` — class `UsabilityGuard` -/

/-- `UsabilityGuard.assess_usability(payload, reference_payload)`:
case-insensitive token-set overlap over distinct reference tokens. -/
def assess_usability (payload reference_payload : List Char) : ℚ :=
  if payload = [] ∨ reference_payload = [] then 0
  else
    let ref_tokens := (tokens (pyLower reference_payload)).dedup
    let payload_tokens := (tokens (pyLower payload)).dedup
    let overlap := ref_tokens.filter (fun t => t ∈ payload_tokens)
    let score : ℚ := (overlap.length : ℚ) / max (ref_tokens.length : ℚ) 1
    min (max score 0) 1

/-- `UsabilityGuard._restore_semantics(degraded_payload, reference_payload,
fraction)`.  Python's `int(...)` truncates toward zero; at the only call site
`fraction > 0`, where truncation and `⌊·⌋.toNat` agree. -/
def restore_semantics (degraded_payload reference_payload : List Char)
    (fraction : ℚ) : List Char :=
  let degraded_tokens := tokens degraded_payload
  let reference_tokens := tokens reference_payload
  let restore_count := (⌊(reference_tokens.length : ℚ) * fraction⌋).toNat
  joinSp (reference_tokens.take restore_count ++ degraded_tokens.drop restore_count)

/-- `UsabilityGuard.enforce_usability(payload, reference_payload, trust_score)`
with the constructor's `min_usability_threshold` passed explicitly. -/
def enforce_usability (min_usability_threshold : ℚ)
    (payload reference_payload : List Char) (trust_score : ℚ) : List Char :=
  if 0.8 ≤ trust_score then
    let usability := assess_usability payload reference_payload
    if usability < min_usability_threshold then
      restore_semantics payload reference_payload (min_usability_threshold - usability)
    else payload
  else payload

/-! ## `core/resolution/resolution_engine.py` — `ResolutionEngine` -/

/-- `ResolutionEngine.evaluate_resolution_state(trust_score)`. -/
def evaluate_resolution_state (trust_score : ℚ) : String :=
  if 0.8 ≤ trust_score then "authorized" else "degraded"

/-! ## CoherenceEvaluator (spec §4.4) -/

/-- Modelled from the spec: no module under `src/` computes a coherence
value; the spec's `CoherenceEvaluator.evaluate` contract defines
`coherence = max(0.0, trust_score − entropy_budget)`. -/
def coherence (trust_score entropy_budget : ℚ) : ℚ :=
  max 0 (trust_score - entropy_budget)

/-- Modelled from the spec: the default entropy budget `1 − trust_score`
(spec §3/§4.4); no module under `src/` computes an entropy budget. -/
def defaultEntropyBudget (trust_score : ℚ) : ℚ :=
  1 - trust_score

/-- Modelled from the spec: the coherence→state bands of §4.4
(`< 0.4 → collapsed`, `< 0.7 → degraded`, else `resolved`); the states
`latent/resolved/collapsed` appear nowhere in `src/`. -/
def coherenceState (c : ℚ) : String :=
  if c < 0.4 then "collapsed"
  else if c < 0.7 then "degraded"
  else "resolved"

/-! ## `core/orchestration/semantic_router.py` — `SemanticRouter.route`

The router holds duck-typed, constructor-injected engines ("Allow engine
injection for testing or custom behavior"); each engine call either returns
a value or raises, modelled as `Except String _`.  `route`'s own `try/except`
structure is embedded verbatim, stage by stage. -/

/-- The injectable engine methods `route` calls. -/
structure RouterEngines where
  calculateLevel : ℚ → List (String × ℚ) → Except String ℚ
  applyEntropy : List Char → ℚ → Except String (List Char)
  applyPolicy : ℚ → List Char → Except String (List Char)
  determineResolution : ℚ → Except String String
  resolveSemantics : List Char → List (String × ℚ) → ℚ → Except String (List Char)

/-- The fields `route` writes back into the data object. -/
structure RouteResult where
  semantic_payload : List Char
  entropy_level : ℚ
  resolution_state : String

/-- A Python `try: x = f() / except: x = fallback` block around a single
assignment. -/
def exceptGetD (x : Except String α) (fallback : α) : α :=
  match x with
  | Except.ok a => a
  | Except.error _ => fallback

/-- `SemanticRouter.route(data_object)` over the data object's
`semantic_payload` / `trust_score` / `context_vector` fields; the four
`try/except` blocks are embedded stage by stage (the first block covers both
the level computation and the entropy application, with both fallbacks). -/
def route (e : RouterEngines) (payload : List Char) (trust : ℚ)
    (context : List (String × ℚ)) : RouteResult :=
  let step1 : ℚ × List Char :=
    match e.calculateLevel trust context with
    | Except.ok lvl =>
      match e.applyEntropy payload lvl with
      | Except.ok p => (lvl, p)
      | Except.error _ => (1, [])
    | Except.error _ => (1, [])
  let entropy_level := step1.1
  let payload1 := step1.2
  let payload2 := exceptGetD (e.applyPolicy trust payload1) payload1
  let resolution_state := exceptGetD (e.determineResolution trust) "degraded"
  let payload3 := exceptGetD (e.resolveSemantics payload2 context trust) []
  ⟨payload3, entropy_level, resolution_state⟩

/-- Injected engines exhibiting a policy-stage failure: the entropy and
semantic-resolution stages behave as identities (possible under the router's
duck-typed engine injection), while `apply_policy` raises. -/
def ce6Engines : RouterEngines where
  calculateLevel := fun _ _ => Except.ok 0
  applyEntropy := fun p _ => Except.ok p
  applyPolicy := fun _ _ => Except.error "policy stage raised"
  determineResolution := fun _ => Except.ok "authorized"
  resolveSemantics := fun p _ _ => Except.ok p

/-- Injected engines whose semantic-resolution stage always raises (as the
repository's default wiring does: `SemanticEngine` has no `resolve` method,
so stage 4 of `route` always hits its `except` arm). -/
def ce6ErrEngines : RouterEngines where
  calculateLevel := fun _ _ => Except.ok 0
  applyEntropy := fun p _ => Except.ok p
  applyPolicy := fun _ p => Except.ok p
  determineResolution := fun _ => Except.ok "authorized"
  resolveSemantics := fun _ _ _ => Except.error "AttributeError"

/-- The payload used in the routing counterexample. -/
def ce6Payload : List Char := "Secret payload".toList

/-! ## Helper lemmas -/

theorem tokensAux_append_nonws (t : List Char) (ht : ∀ c ∈ t, isWsChar c = false) :
    ∀ (cs acc : List Char), tokensAux (t ++ cs) acc = tokensAux cs (t.reverse ++ acc) := by
  induction t with
  | nil => intro cs acc; simp
  | cons c t ih =>
    intro cs acc
    have hc : isWsChar c = false := ht c (List.mem_cons_self c t)
    have ht' : ∀ c ∈ t, isWsChar c = false := fun x hx => ht x (List.mem_cons_of_mem c hx)
    simp only [List.cons_append, tokensAux, hc, Bool.false_eq_true, if_false, List.append_eq]
    rw [ih ht' cs (c :: acc)]
    simp

theorem tokens_mem_wf (s : List Char) : ∀ t ∈ tokens s, WfToken t := by
  suffices h : ∀ (s acc : List Char), (∀ c ∈ acc, isWsChar c = false) →
      ∀ t ∈ tokensAux s acc, WfToken t by
    exact h s [] (by intro c hc; cases hc)
  intro s
  induction s with
  | nil =>
    intro acc hacc t htmem
    simp only [tokensAux] at htmem
    by_cases hk : acc = ([] : List Char)
    · simp [hk] at htmem
    · simp only [hk, if_false] at htmem
      rcases List.mem_singleton.mp htmem with rfl
      refine ⟨by simpa using hk, ?_⟩
      intro c hc
      exact hacc c (List.mem_reverse.mp hc)
  | cons c cs ih =>
    intro acc hacc t htmem
    simp only [tokensAux] at htmem
    by_cases hw : isWsChar c
    · simp only [hw, if_true] at htmem
      by_cases hk : acc = ([] : List Char)
      · simp only [hk, if_true] at htmem
        exact ih [] (by intro x hx; cases hx) t htmem
      · simp only [hk, if_false, List.mem_cons] at htmem
        rcases htmem with rfl | htmem
        · refine ⟨by simpa using hk, ?_⟩
          intro x hx
          exact hacc x (List.mem_reverse.mp hx)
        · exact ih [] (by intro x hx; cases hx) t htmem
    · simp only [hw, if_false] at htmem
      refine ih (c :: acc) ?_ t htmem
      intro x hx
      rcases List.mem_cons.mp hx with rfl | hx
      · simpa using hw
      · exact hacc x hx

theorem tokens_join (toks : List (List Char)) (h : ∀ t ∈ toks, WfToken t) :
    tokens (joinSp toks) = toks := by
  induction toks with
  | nil => rfl
  | cons t ts ih =>
    have hwf : WfToken t := h t (List.mem_cons_self t ts)
    have hts : ∀ u ∈ ts, WfToken u := fun u hu => h u (List.mem_cons_of_mem t hu)
    cases ts with
    | nil =>
      show tokens (joinSp [t]) = [t]
      have : joinSp [t] = t := rfl
      rw [this]
      show tokensAux t [] = [t]
      have := tokensAux_append_nonws t hwf.2 [] []
      simp only [List.append_nil] at this
      rw [this]
      simp only [tokensAux]
      have : t.reverse ≠ [] := by simpa using hwf.1
      simp [this]
    | cons u us =>
      have hjoin : joinSp (t :: u :: us) = t ++ ' ' :: joinSp (u :: us) := rfl
      rw [hjoin]
      show tokensAux (t ++ ' ' :: joinSp (u :: us)) [] = t :: u :: us
      rw [tokensAux_append_nonws t hwf.2 (' ' :: joinSp (u :: us)) []]
      simp only [List.append_nil, tokensAux]
      have hsp : isWsChar ' ' = true := by decide
      have hne : t.reverse ≠ [] := by simpa using hwf.1
      simp only [hsp, if_true, hne, if_false, List.reverse_reverse]
      have := ih hts
      simp only [tokens] at this
      rw [this]

theorem mapWithIdx_length (f : ℕ → α → β) (i : ℕ) (l : List α) :
    (mapWithIdx f i l).length = l.length := by
  induction l generalizing i with
  | nil => rfl
  | cons x xs ih => simp [mapWithIdx, ih]

theorem mapWithIdx_mem (f : ℕ → α → β) (i : ℕ) (l : List α) :
    ∀ y ∈ mapWithIdx f i l, ∃ j x, x ∈ l ∧ y = f j x := by
  induction l generalizing i with
  | nil => intro y hy; cases hy
  | cons x xs ih =>
    intro y hy
    rcases List.mem_cons.mp hy with rfl | hy
    · exact ⟨i, x, List.mem_cons_self x xs, rfl⟩
    · rcases ih (i + 1) y hy with ⟨j, z, hz, rfl⟩
      exact ⟨j, z, List.mem_cons_of_mem x hz, rfl⟩

theorem randomChoice_mem (pick : ℕ) (l : List α) (dflt : α) (h : l ≠ []) :
    randomChoice pick l dflt ∈ l := by
  have hlen : 0 < l.length := List.length_pos.mpr h
  have hlt : pick % l.length < l.length := Nat.mod_lt _ hlen
  rw [randomChoice, List.getD_eq_getElem _ _ hlt]
  exact List.getElem_mem hlt

theorem exceptGetD_error (x : Except String α) (fallback : α)
    (h : ∃ m, x = Except.error m) : exceptGetD x fallback = fallback := by
  obtain ⟨m, rfl⟩ := h
  rfl

theorem clamp01_mono {a b : ℚ} (h : a ≤ b) : clamp01 a ≤ clamp01 b :=
  max_le_max le_rfl (min_le_min le_rfl h)

theorem clamp01_comm (x : ℚ) : max 0 (min 1 x) = min 1 (max 0 x) := by
  rw [max_min_distrib_left, max_eq_right (zero_le_one (α := ℚ))]

/-! ## Claim C1 -/

/-- Claim C1 (as stated) is false on the code: at `trust_score = 1.0` the
resolution-state function of `core/resolution/resolution_engine.py` returns
the label `"authorized"`, not `"resolved"`. -/
theorem C1_counterexample :
    evaluate_resolution_state 1 = "authorized" ∧ "authorized" ≠ "resolved" := by
  constructor
  · norm_num [evaluate_resolution_state]
  · decide

/-- Claim C1 (amended): with `trust_score = 1.0` and the default entropy
budget `1 − trust_score = 0`, the spec-modelled coherence
`max(0.0, trust_score − entropy_budget)` equals `1.0` and falls in the
spec's `resolved` band, while the code's resolution-state function
(`ResolutionEngine.evaluate_resolution_state`) labels this high-trust case
`"authorized"` — the source has no `"resolved"` state. -/
theorem C1_coherence_at_full_trust :
    coherence 1 (defaultEntropyBudget 1) = 1 ∧
    coherenceState (coherence 1 (defaultEntropyBudget 1)) = "resolved" ∧
    evaluate_resolution_state 1 = "authorized" := by
  have hb : defaultEntropyBudget 1 = 0 := by norm_num [defaultEntropyBudget]
  have hc : coherence 1 (defaultEntropyBudget 1) = 1 := by
    rw [hb, coherence]
    norm_num
  refine ⟨hc, ?_, by norm_num [evaluate_resolution_state]⟩
  rw [hc, coherenceState]
  norm_num

/-! ## Claim C2 -/

/-- Claim C2 (as stated) is false on `TrustScoring.compute_score`: with
configured weights `{a: 1, b: 1}` and present signals `{a: 1}` the code
divides by the sum of ALL configured weights (2), returning `0.5`, while the
spec formula divides by the weights of present signals only (1), giving
`1.0`. -/
theorem C2_counterexample :
    compute_score [("a", 1), ("b", 1)] [("a", 1)] = 1 / 2 ∧
    specTrustFormula [("a", 1), ("b", 1)] [("a", 1)] = 1 ∧
    compute_score [("a", 1), ("b", 1)] [("a", 1)] ≠
      specTrustFormula [("a", 1), ("b", 1)] [("a", 1)] := by
  have hl : List.lookup "a" [("a", (1 : ℚ)), ("b", 1)] = some 1 := rfl
  have h1 : compute_score [("a", 1), ("b", 1)] [("a", 1)] = 1 / 2 := by
    norm_num [compute_score, hl]
    rw [if_neg (List.cons_ne_nil ("a", (1 : ℚ)) [("b", 1)])]
    norm_num
  have h2 : specTrustFormula [("a", 1), ("b", 1)] [("a", 1)] = 1 := by
    norm_num [specTrustFormula, hl]
  refine ⟨h1, h2, ?_⟩
  rw [h1, h2]
  norm_num

/-- Claim C2 (amended): `ConfidenceModel.compute_confidence` does satisfy the
spec formula — for every non-empty signal mapping whose present-signal weight
total is non-zero, it returns `Σ(value × weight) / Σ(weights over present
signals)` clamped to `[0,1]`, where unconfigured keys weigh `0` and an empty
weight configuration defaults to equal weight `1` per present signal.
(`TrustScoring.compute_score` and `TrustVector.weighted_score` instead divide
by the sum of all configured weights, as the counterexample shows.) -/
theorem C2_confidence_matches_spec (selfWeights context_vector : List (String × ℚ))
    (hne : context_vector ≠ [])
    (hden : (context_vector.map
      (fun kv => ((effectiveWeights selfWeights context_vector).lookup kv.1).getD 0)).sum ≠ 0) :
    compute_confidence selfWeights context_vector =
      specTrustFormula (effectiveWeights selfWeights context_vector) context_vector := by
  unfold compute_confidence specTrustFormula
  rw [if_neg hne, if_neg hden]
  exact clamp01_comm _

/-- Witness for C2 (amended) at signals `{a: 1/2}` with no configured
weights. -/
theorem C2_confidence_matches_spec_witness :
    compute_confidence [] [("a", 1 / 2)] =
      specTrustFormula (effectiveWeights [] [("a", 1 / 2)]) [("a", 1 / 2)] :=
  C2_confidence_matches_spec [] [("a", 1 / 2)] (by simp)
    (by
      have hw : effectiveWeights [] [("a", (1 : ℚ) / 2)] = [("a", 1)] := rfl
      have hlu : List.lookup "a" [("a", (1 : ℚ))] = some 1 := rfl
      simp only [hw, List.map_cons, List.map_nil, hlu, Option.getD_some,
        List.sum_cons, List.sum_nil, add_zero]
      norm_num)

/-! ## Claim C7 -/

/-- Claim C7: for every threshold, degraded payload, reference payload and
trust score below `0.8`, `UsabilityGuard.enforce_usability` returns the
degraded payload unchanged, whatever the measured usability. -/
theorem C7_enforce_noop_below_08 (min_usability_threshold : ℚ)
    (payload reference_payload : List Char) (trust_score : ℚ)
    (h : trust_score < 0.8) :
    enforce_usability min_usability_threshold payload reference_payload trust_score
      = payload := by
  unfold enforce_usability
  rw [if_neg (not_le.mpr h)]

/-- Witness for C7 at a concrete call with a heavily degraded payload. -/
theorem C7_enforce_noop_below_08_witness :
    enforce_usability 0.85 "x y".toList "a b".toList (1 / 2) = "x y".toList :=
  C7_enforce_noop_below_08 0.85 "x y".toList "a b".toList (1 / 2) (by norm_num)

/-! ## Claims C5 and C10 -/

theorem getProfileByName_low : getProfileByName "low_noise" = some lowNoiseProfile := rfl

theorem getProfileByName_medium :
    getProfileByName "medium_noise" = some mediumNoiseProfile := rfl

theorem getProfileByName_high : getProfileByName "high_noise" = some highNoiseProfile := rfl

theorem get_profile_eq_low (t : ℚ) (h : 0.8 ≤ clamp01 t) :
    get_profile t = some lowNoiseProfile := by
  simp only [get_profile]
  rw [if_pos h]
  exact getProfileByName_low

theorem get_profile_eq_medium (t : ℚ) (h1 : ¬ 0.8 ≤ clamp01 t) (h2 : 0.4 ≤ clamp01 t) :
    get_profile t = some mediumNoiseProfile := by
  simp only [get_profile]
  rw [if_neg h1, if_pos h2]
  exact getProfileByName_medium

theorem get_profile_eq_high (t : ℚ) (h1 : ¬ 0.8 ≤ clamp01 t) (h2 : ¬ 0.4 ≤ clamp01 t) :
    get_profile t = some highNoiseProfile := by
  simp only [get_profile]
  rw [if_neg h1, if_neg h2]
  exact getProfileByName_high

theorem low_ne_medium : lowNoiseProfile ≠ mediumNoiseProfile := by
  intro h
  have := congrArg EntropyProfile.name h
  simp [lowNoiseProfile, mediumNoiseProfile] at this

theorem low_ne_high : lowNoiseProfile ≠ highNoiseProfile := by
  intro h
  have := congrArg EntropyProfile.name h
  simp [lowNoiseProfile, highNoiseProfile] at this

theorem medium_ne_high : mediumNoiseProfile ≠ highNoiseProfile := by
  intro h
  have := congrArg EntropyProfile.name h
  simp [mediumNoiseProfile, highNoiseProfile] at this

theorem get_profile_mem (t : ℚ) (p : EntropyProfile) (h : get_profile t = some p) :
    p = lowNoiseProfile ∨ p = mediumNoiseProfile ∨ p = highNoiseProfile := by
  by_cases h1 : (0.8 : ℚ) ≤ clamp01 t
  · rw [get_profile_eq_low t h1] at h
    exact Or.inl (Option.some.inj h).symm
  · by_cases h2 : (0.4 : ℚ) ≤ clamp01 t
    · rw [get_profile_eq_medium t h1 h2] at h
      exact Or.inr (Or.inl (Option.some.inj h).symm)
    · rw [get_profile_eq_high t h1 h2] at h
      exact Or.inr (Or.inr (Option.some.inj h).symm)

/-- Claim C5: after clamping the score to `[0,1]`,
`AdaptiveProfiles.get_profile` returns `low_noise` exactly when the clamped
score is `≥ 0.8`, `medium_noise` exactly when it lies in `[0.4, 0.8)` and
`high_noise` exactly when it is `< 0.4`; being a plain function of the score,
it is pure and deterministic. -/
theorem C5_profile_bands (t : ℚ) :
    (get_profile t = some lowNoiseProfile ↔ 0.8 ≤ clamp01 t) ∧
    (get_profile t = some mediumNoiseProfile ↔ 0.4 ≤ clamp01 t ∧ clamp01 t < 0.8) ∧
    (get_profile t = some highNoiseProfile ↔ clamp01 t < 0.4) := by
  by_cases h1 : (0.8 : ℚ) ≤ clamp01 t
  · rw [get_profile_eq_low t h1]
    refine ⟨⟨fun _ => h1, fun _ => rfl⟩, ?_, ?_⟩
    · constructor
      · intro h
        exact absurd (Option.some.inj h) low_ne_medium
      · intro h
        exact absurd h1 (not_le.mpr h.2)
    · constructor
      · intro h
        exact absurd (Option.some.inj h) low_ne_high
      · intro h
        exact absurd h1 (not_le.mpr (h.trans_le (by norm_num)))
  · by_cases h2 : (0.4 : ℚ) ≤ clamp01 t
    · rw [get_profile_eq_medium t h1 h2]
      refine ⟨?_, ⟨fun _ => ⟨h2, not_le.mp h1⟩, fun _ => rfl⟩, ?_⟩
      · constructor
        · intro h
          exact absurd (Option.some.inj h) low_ne_medium.symm
        · intro h
          exact absurd h h1
      · constructor
        · intro h
          exact absurd (Option.some.inj h) medium_ne_high
        · intro h
          exact absurd h2 (not_le.mpr h)
    · rw [get_profile_eq_high t h1 h2]
      refine ⟨?_, ?_, ⟨fun _ => not_le.mp h2, fun _ => rfl⟩⟩
      · constructor
        · intro h
          exact absurd (Option.some.inj h) low_ne_high.symm
        · intro h
          exact absurd h h1
      · constructor
        · intro h
          exact absurd (Option.some.inj h) medium_ne_high.symm
        · intro h
          exact absurd h.1 h2

/-- Claim C10: profile selection is monotone — a strictly smaller trust score
never selects a profile with a strictly smaller noise level. -/
theorem C10_profile_monotone (t1 t2 : ℚ) (h : t1 < t2) (p1 p2 : EntropyProfile)
    (h1 : get_profile t1 = some p1) (h2 : get_profile t2 = some p2) :
    p2.noise_level ≤ p1.noise_level := by
  have hc : clamp01 t1 ≤ clamp01 t2 := clamp01_mono h.le
  by_cases ha1 : (0.8 : ℚ) ≤ clamp01 t1
  · have ha2 : (0.8 : ℚ) ≤ clamp01 t2 := le_trans ha1 hc
    rw [get_profile_eq_low t1 ha1] at h1
    rw [get_profile_eq_low t2 ha2] at h2
    obtain rfl := Option.some.inj h1
    obtain rfl := Option.some.inj h2
    exact le_rfl
  · by_cases hb1 : (0.4 : ℚ) ≤ clamp01 t1
    · rw [get_profile_eq_medium t1 ha1 hb1] at h1
      obtain rfl := Option.some.inj h1
      by_cases ha2 : (0.8 : ℚ) ≤ clamp01 t2
      · rw [get_profile_eq_low t2 ha2] at h2
        obtain rfl := Option.some.inj h2
        norm_num [lowNoiseProfile, mediumNoiseProfile]
      · have hb2 : (0.4 : ℚ) ≤ clamp01 t2 := le_trans hb1 hc
        rw [get_profile_eq_medium t2 ha2 hb2] at h2
        obtain rfl := Option.some.inj h2
        exact le_rfl
    · rw [get_profile_eq_high t1 ha1 hb1] at h1
      obtain rfl := Option.some.inj h1
      rcases get_profile_mem t2 p2 h2 with rfl | rfl | rfl <;>
        norm_num [lowNoiseProfile, mediumNoiseProfile, highNoiseProfile]

/-- Witness for C10 at `t1 = 0 < t2 = 1` (`high_noise` vs `low_noise`). -/
theorem C10_profile_monotone_witness :
    lowNoiseProfile.noise_level ≤ highNoiseProfile.noise_level :=
  C10_profile_monotone 0 1 (by norm_num) highNoiseProfile lowNoiseProfile
    (get_profile_eq_high 0 (by norm_num [clamp01]) (by norm_num [clamp01]))
    (get_profile_eq_low 1 (by norm_num [clamp01]))

/-! ## Claim C8 -/

theorem decay_closed (r m t : ℚ) (hr0 : 0 ≤ r) (hr1 : r ≤ 1) (hm : 0 ≤ m) (_ht : 0 ≤ t) :
    ∀ k : ℕ, decay_with_exposure r m t (k + 1) = max m (t * (1 - r) ^ (k + 1)) := by
  have h1r : (0 : ℚ) ≤ 1 - r := by linarith
  intro k
  induction k with
  | zero =>
    show decay_trust r m (decay_with_exposure r m t 0) = _
    rw [decay_with_exposure, decay_trust, pow_one]
  | succ n ih =>
    show decay_trust r m (decay_with_exposure r m t (n + 1)) = _
    rw [ih, decay_trust, max_mul_of_nonneg _ _ h1r, ← max_assoc,
      max_eq_left (mul_le_of_le_one_right hm (by linarith))]
    congr 1
    ring

/-- Claim C8 (as stated) is false at `exposure_count = 0`: with
`min_trust = 1/2 > trust = 1/10`, the loop in
`TrustDecay.decay_with_exposure` runs zero times and returns the trust score
unchanged (`1/10`), while the claimed closed form `max(m, t·(1−r)^0)` is the
floor `1/2`. -/
theorem C8_counterexample :
    decay_with_exposure (1 / 20) (1 / 2) (1 / 10) 0 = 1 / 10 ∧
    max (1 / 2 : ℚ) (1 / 10 * (1 - 1 / 20) ^ (0 : ℕ)) = 1 / 2 ∧
    (1 / 10 : ℚ) ≠ 1 / 2 := by
  refine ⟨rfl, ?_, by norm_num⟩
  norm_num

/-- Claim C8 (amended): for every decay rate `r ∈ [0,1]`, floor `m ≥ 0`,
trust score `t ≥ 0` and `exposure_count ≥ 1`, the `exposure_count`-fold
iterated per-step decay of `TrustDecay.decay_with_exposure` equals the closed
form `max(m, t × (1−r)^exposure_count)`; at `exposure_count = 0` the score is
returned unchanged, without the floor (see the counterexample). -/
theorem C8_exposure_decay_closed_form (r m t : ℚ) (n : ℕ)
    (hr0 : 0 ≤ r) (hr1 : r ≤ 1) (hm : 0 ≤ m) (ht : 0 ≤ t) (hn : 1 ≤ n) :
    decay_with_exposure r m t n = max m (t * (1 - r) ^ n) := by
  obtain ⟨k, rfl⟩ : ∃ k, n = k + 1 := ⟨n - 1, by omega⟩
  exact decay_closed r m t hr0 hr1 hm ht k

/-- Witness for C8 (amended) at `r = 1/2`, `m = 0`, `t = 1`, two exposures. -/
theorem C8_exposure_decay_closed_form_witness :
    decay_with_exposure (1 / 2) 0 1 2 = max 0 (1 * (1 - 1 / 2) ^ (2 : ℕ)) :=
  C8_exposure_decay_closed_form (1 / 2) 0 1 2 (by norm_num) (by norm_num) le_rfl
    (by norm_num) (by norm_num)

/-! ## Claim C4 -/

/-- Claim C4 (as stated) is false: a `"risk"`-named signal supplied among the
agent/context signals of `SignalFusion.fuse_signals` is *not* inverted, so the
fused trust score strictly increases in its raw value. -/
theorem C4_counterexample :
    fuse_signals [("network_risk", 0)] [] (some [("network_risk", 1)]) = 0 ∧
    fuse_signals [("network_risk", 1)] [] (some [("network_risk", 1)]) = 1 ∧
    fuse_signals [("network_risk", 0)] [] (some [("network_risk", 1)]) <
      fuse_signals [("network_risk", 1)] [] (some [("network_risk", 1)]) := by
  have hlu : (List.lookup "network_risk" [("network_risk", (1 : ℚ))]).getD 0 = 1 := rfl
  have h0 : fuse_signals [("network_risk", 0)] [] (some [("network_risk", 1)]) = 0 := by
    simp only [fuse_signals, List.map_cons, List.map_nil, List.sum_cons, List.sum_nil, hlu]
    norm_num [clamp01]
  have h1 : fuse_signals [("network_risk", 1)] [] (some [("network_risk", 1)]) = 1 := by
    simp only [fuse_signals, List.map_cons, List.map_nil, List.sum_cons, List.sum_nil, hlu]
    norm_num [clamp01]
  refine ⟨h0, h1, ?_⟩
  rw [h0, h1]
  norm_num

/-- Claim C4 (amended): the inversion applies to the environment signals
only — for every environment signal whose lowercased name contains `"risk"`
or `"threat"` and whose weight is non-negative, `SignalFusion.fuse_signals`
uses `1 − clamp(value)`, so the fused score is non-increasing in the raw
value of that signal (context-dict signals, and `TrustScoring.compute_score`
entirely, apply no inversion — see the counterexample). -/
theorem C4_env_risk_antitone (context_signals rest w : List (String × ℚ))
    (key : String) (v1 v2 : ℚ) (hkey : riskOrThreat key = true)
    (hw : 0 ≤ (w.lookup key).getD 0) (hv : v1 ≤ v2) :
    fuse_signals context_signals ((key, v2) :: rest) (some w) ≤
      fuse_signals context_signals ((key, v1) :: rest) (some w) := by
  simp only [fuse_signals, List.map_cons, List.sum_cons, hkey, if_true]
  refine max_le_max le_rfl (min_le_min le_rfl ?_)
  refine add_le_add le_rfl (add_le_add ?_ le_rfl)
  refine mul_le_mul_of_nonneg_right ?_ hw
  have := clamp01_mono hv
  linarith

/-- Witness for C4 (amended): raising `network_risk` from `0` to `1` in the
environment signals does not raise the fused score. -/
theorem C4_env_risk_antitone_witness :
    fuse_signals [] [("network_risk", 1)] (some [("network_risk", 1)]) ≤
      fuse_signals [] [("network_risk", 0)] (some [("network_risk", 1)]) :=
  C4_env_risk_antitone [] [] [("network_risk", 1)] "network_risk" 0 1 rfl
    (by
      have hlu : (List.lookup "network_risk" [("network_risk", (1 : ℚ))]).getD 0 = 1 := rfl
      rw [hlu]
      norm_num)
    (by norm_num)

/-! ## Claim C9 -/

theorem swapPass_perm (flip : ℕ → ℚ) (p : ℚ) :
    ∀ (i : ℕ) (c : List Char) (l : List (List Char)),
      List.Perm (swapPass flip p i c l) (c :: l) := by
  intro i c l
  induction l generalizing i c with
  | nil => simp [swapPass]
  | cons y rest ih =>
    simp only [swapPass]
    by_cases hf : flip i < p
    · rw [if_pos hf]
      exact ((ih (i + 1) c).cons y).trans (List.Perm.swap c y rest)
    · rw [if_neg hf]
      exact (ih (i + 1) y).cons c

/-- Claim C9 (as stated) is false: on `"a b c"` with every pair-swap decision
taken (`flip ≡ 0 < 1/2`), the single left-to-right pass of `token_swap`
produces `"b c a"` — the token `"a"` starts at position 0 and ends at
position 2, so swaps overlap and a token can participate in two swaps. -/
theorem C9_counterexample :
    tokens "a b c".toList = ["a".toList, "b".toList, "c".toList] ∧
    token_swap (mkRat 1 2) (fun _ => 0) "a b c".toList = "b c a".toList ∧
    tokens (token_swap (mkRat 1 2) (fun _ => 0) "a b c".toList) =
      ["b".toList, "c".toList, "a".toList] := by
  refine ⟨rfl, rfl, rfl⟩

/-- Claim C9 (amended): a single `token_swap` call is a left-to-right pass
over adjacent positions in which each decision compares the pair *after*
earlier swaps, so swaps cascade: the result is always a permutation of the
input tokens (same tokens, same count), but a token may travel several
positions to the right in one call (see the counterexample). -/
theorem C9_token_swap_perm (p : ℚ) (flip : ℕ → ℚ) (text : List Char) :
    List.Perm (tokens (token_swap p flip text)) (tokens text) := by
  unfold token_swap
  by_cases hp : p ≤ 0
  · rw [if_pos hp]
  · rw [if_neg hp]
    cases htok : tokens text with
    | nil =>
      show (tokens (joinSp [])).Perm []
      simp [joinSp, tokens, tokensAux]
    | cons x xs =>
      show (tokens (joinSp (swapPass flip p 0 x xs))).Perm (x :: xs)
      have hperm : List.Perm (swapPass flip p 0 x xs) (x :: xs) := swapPass_perm flip p 0 x xs
      have hwf : ∀ u ∈ swapPass flip p 0 x xs, WfToken u := by
        intro u hu
        have hmem : u ∈ x :: xs := hperm.subset hu
        rw [← htok] at hmem
        exact tokens_mem_wf text u hmem
      rw [tokens_join _ hwf]
      exact hperm

/-! ## Claim C3 -/

theorem countTokens_joinSp_mapWithIdx (f : ℕ → List Char → List Char) (text : List Char)
    (hf : ∀ i u, u ∈ tokens text → WfToken (f i u)) :
    countTokens (joinSp (mapWithIdx f 0 (tokens text))) = countTokens text := by
  have hwf : ∀ u ∈ mapWithIdx f 0 (tokens text), WfToken u := by
    intro u hu
    rcases mapWithIdx_mem f 0 (tokens text) u hu with ⟨j, x, hx, rfl⟩
    exact hf j x hx
  unfold countTokens
  rw [tokens_join _ hwf, mapWithIdx_length]

/-- Claim C3 (as stated) is false on two of the five transforms:
`sentence_split_shuffle` re-joins on `'. '` and appends a final `'.'`, so
`"a . b"` (3 tokens) becomes `"a. b."` (2 tokens) even when no shuffle
occurs; and `apply_synonym_drift` expands a multi-word WordNet lemma
(`"pass"` has the lemma `kick_the_bucket` in its synsets, whose underscores
the code replaces with spaces), so `"pass on"` (2 tokens) becomes
`"kick the bucket on"` (4 tokens). -/
theorem C3_counterexample :
    countTokens "a . b".toList = 3 ∧
    countTokens (sentence_split_shuffle (mkRat 1 2) (mkRat 1 2) id "a . b".toList) = 2 ∧
    countTokens "pass on".toList = 2 ∧
    countTokens (apply_synonym_drift
      (fun w => if w = "pass".toList then ["kick_the_bucket".toList] else [])
      (mkRat 1 2) (fun _ => 0) (fun _ => 0) "pass on".toList) = 4 := by
  refine ⟨rfl, rfl, rfl, rfl⟩

/-- Claim C3 (amended): for every payload, probability setting and RNG
behaviour, polysemy injection, referential ambiguity and token swap preserve
the whitespace-token count (their replacement pools being single
whitespace-free tokens, as the defaults are); synonym drift preserves it
provided every synonym lemma drawn is a single token after underscore
replacement; sentence shuffle does not preserve it in general (see the
counterexample). -/
theorem C3_token_count_invariants :
    (∀ (terms : List (List Char)) (p : ℚ) (flip : ℕ → ℚ) (pick : ℕ → ℕ) (text : List Char),
      (∀ u ∈ terms, WfToken u) →
      countTokens (apply_polysemy_injection terms p flip pick text) = countTokens text) ∧
    (∀ (ph : List Char) (p : ℚ) (flip : ℕ → ℚ) (text : List Char),
      WfToken ph →
      countTokens (apply_referential_ambiguity ph p flip text) = countTokens text) ∧
    (∀ (p : ℚ) (flip : ℕ → ℚ) (text : List Char),
      countTokens (token_swap p flip text) = countTokens text) ∧
    (∀ (syns : List Char → List (List Char)) (p : ℚ) (flip : ℕ → ℚ) (pick : ℕ → ℕ)
      (text : List Char),
      (∀ w u, u ∈ syns w → WfToken (replaceUnderscores u)) →
      countTokens (apply_synonym_drift syns p flip pick text) = countTokens text) := by
  refine ⟨?_, ?_, ?_, ?_⟩
  · intro terms p flip pick text hterms
    unfold apply_polysemy_injection
    by_cases hp : p ≤ 0
    · rw [if_pos hp]
    · rw [if_neg hp]
      refine countTokens_joinSp_mapWithIdx _ text ?_
      intro i u hu
      by_cases hflip : flip i < p
      · rw [if_pos hflip]
        by_cases hterm : terms = []
        · subst hterm
          simp only [randomChoice, List.getD]
          simpa using tokens_mem_wf text u hu
        · exact hterms _ (randomChoice_mem (pick i) terms u hterm)
      · rw [if_neg hflip]
        exact tokens_mem_wf text u hu
  · intro ph p flip text hph
    unfold apply_referential_ambiguity
    by_cases hp : p ≤ 0
    · rw [if_pos hp]
    · rw [if_neg hp]
      refine countTokens_joinSp_mapWithIdx _ text ?_
      intro i u hu
      by_cases hb : (headIsUpper u && decide (flip i < p)) = true
      · rw [if_pos hb]
        exact hph
      · rw [if_neg hb]
        exact tokens_mem_wf text u hu
  · intro p flip text
    unfold token_swap
    by_cases hp : p ≤ 0
    · rw [if_pos hp]
    · rw [if_neg hp]
      cases htok : tokens text with
      | nil =>
        unfold countTokens
        rw [htok]
        rfl
      | cons x xs =>
        have hperm : List.Perm (swapPass flip p 0 x xs) (x :: xs) := swapPass_perm flip p 0 x xs
        have hwf : ∀ u ∈ swapPass flip p 0 x xs, WfToken u := by
          intro u hu
          have hmem : u ∈ x :: xs := hperm.subset hu
          rw [← htok] at hmem
          exact tokens_mem_wf text u hmem
        unfold countTokens
        rw [htok, tokens_join _ hwf, hperm.length_eq]
  · intro syns p flip pick text hsyns
    unfold apply_synonym_drift
    by_cases hp : p ≤ 0
    · rw [if_pos hp]
    · rw [if_neg hp]
      refine countTokens_joinSp_mapWithIdx _ text ?_
      intro i u hu
      by_cases hflip : flip i < p
      · rw [if_pos hflip]
        by_cases hlem : (syns u).filter (fun l => l ≠ u) = []
        · simp only [hlem, if_pos]
          exact tokens_mem_wf text u hu
        · simp only [hlem, if_neg, if_false]
          have hmem := randomChoice_mem (pick i) ((syns u).filter (fun l => l ≠ u)) u hlem
          exact hsyns u _ (List.mem_of_mem_filter hmem)
      · rw [if_neg hflip]
        exact tokens_mem_wf text u hu

/-- Witness for C3 (amended) on concrete payloads, with the default
ambiguous-terms pool, the default placeholder, and a single-token synonym
source. -/
theorem C3_token_count_invariants_witness :
    countTokens (apply_polysemy_injection defaultAmbiguousTerms (mkRat 1 2) (fun _ => 0)
      (fun _ => 3) "hello world now".toList) = countTokens "hello world now".toList ∧
    countTokens (apply_referential_ambiguity defaultPlaceholder (mkRat 1 2) (fun _ => 0)
      "Alice transferred funds".toList) = countTokens "Alice transferred funds".toList ∧
    countTokens (token_swap (mkRat 1 2) (fun _ => 0) "a b c".toList) =
      countTokens "a b c".toList ∧
    countTokens (apply_synonym_drift (fun _ => ["cat".toList]) (mkRat 1 2) (fun _ => 0)
      (fun _ => 0) "x y".toList) = countTokens "x y".toList :=
  ⟨C3_token_count_invariants.1 defaultAmbiguousTerms (mkRat 1 2) (fun _ => 0) (fun _ => 3)
      "hello world now".toList
      (by
        intro u hu
        simp only [defaultAmbiguousTerms, List.mem_cons, List.not_mem_nil, or_false] at hu
        rcases hu with rfl | rfl | rfl | rfl | rfl <;> exact ⟨by decide, by decide⟩),
    C3_token_count_invariants.2.1 defaultPlaceholder (mkRat 1 2) (fun _ => 0)
      "Alice transferred funds".toList ⟨by decide, by decide⟩,
    C3_token_count_invariants.2.2.1 (mkRat 1 2) (fun _ => 0) "a b c".toList,
    C3_token_count_invariants.2.2.2 (fun _ => ["cat".toList]) (mkRat 1 2) (fun _ => 0)
      (fun _ => 0) "x y".toList
      (fun w u hu => by
        rcases List.mem_singleton.mp hu with rfl
        exact ⟨by decide, by decide⟩)⟩

/-! ## Claim C6 -/

/-- Claim C6 (as stated) is false: when the policy-transformation stage
raises, `SemanticRouter.route` catches and logs the exception but keeps the
payload from the previous stage — with injected engines whose other stages
are identities, the original content comes back unmodified, not a
maximum-entropy substitute. -/
theorem C6_counterexample :
    ce6Engines.applyPolicy 1 ce6Payload = Except.error "policy stage raised" ∧
    (route ce6Engines ce6Payload 1 []).semantic_payload = ce6Payload :=
  ⟨rfl, rfl⟩

/-- Claim C6 (amended): `route` catches each stage's exception locally, but
only the entropy stage and the semantic-resolution stage substitute the
empty (maximum-entropy) payload; in particular, whenever the
semantic-resolution stage raises, the routed payload is empty — while a
policy-stage failure leaves the previous stage's payload in place (see the
counterexample). -/
theorem C6_resolve_failure_empties_payload (e : RouterEngines) (payload : List Char)
    (trust : ℚ) (context : List (String × ℚ))
    (h : ∀ q c t, ∃ msg, e.resolveSemantics q c t = Except.error msg) :
    (route e payload trust context).semantic_payload = [] :=
  exceptGetD_error _ _ (h _ _ _)

/-- Witness for C6 (amended): with the always-raising resolution stage of the
default wiring, the routed payload is empty. -/
theorem C6_resolve_failure_empties_payload_witness :
    (route ce6ErrEngines "abc".toList 0 []).semantic_payload = [] :=
  C6_resolve_failure_empties_payload ce6ErrEngines "abc".toList 0 []
    (fun _ _ _ => ⟨"AttributeError", rfl⟩)
